import Mathlib

/-!
# Verification of the `Datastructure` path-access wrapper

A shallow embedding of `src/datastructure.py`: a wrapper around nested
dict/list data providing path-addressed get / set / delete / contains and
wildcard pattern iteration (`iterpattern`, `filterpattern`).

Modelling choices (all fixed to the source's defaults):
* separator `"."`, wildcard `"*"`, append symbol `"+"`;
* values are `None`, integers, strings, lists and dicts (tuples, floats,
  booleans and nested wrapper objects are out of scope — no claim touches
  them; Python booleans would behave as the integers 0/1);
* dicts are insertion-ordered association lists with `Nat`-or-string keys
  (the key coercion `int(k)` of a digit-only segment always produces a
  non-negative integer, and no claim involves negative integer keys);
* Python's in-place mutation through the parent reference returned by
  `_get_object_and_key` is modelled as a functional update along the very
  same traversal (`mutAt`), assuming tree-shaped data (no aliasing);
* a raised exception is an `Except.error`; the bare `except:` handlers of
  the source become `match`es on that `Except`;
* `iterpattern`-style generators are modelled by the finite list of pairs
  they yield together with the exception, if any, that terminates them
  (`GenOut`); Python's generator-function call semantics (no body code
  runs at call time) is modelled by the separate `filterpatternCall`.
-/

/-- A Python dict key as used by the wrapper: a (non-negative) integer or a
string.  Segment coercion `int(k)` of a digit-only string only ever
produces non-negative integers. -/
inductive Key where
  | kInt (n : Nat)
  | kStr (s : String)
  deriving DecidableEq

/-- The value model: `None`, int, str, list, dict (insertion-ordered
association list). -/
inductive Value where
  | vnone
  | int (n : Int)
  | str (s : String)
  | list (xs : List Value)
  | dict (m : List (Key × Value))

/-- The exceptions the Python code can raise, by class, with the message. -/
inductive PyErr where
  | keyError (msg : String)
  | indexError (msg : String)
  | valueError (msg : String)
  | typeError (msg : String)
  | attributeError (msg : String)
  deriving DecidableEq

/-- `isinstance(d, (dict, list, tuple, Datastructure))` restricted to the
modelled value domain. -/
def isContainer : Value → Bool
  | .list _ => true
  | .dict _ => true
  | _ => false

/-- Python truthiness of a value (`bool(v)`), used by the `or` defaults. -/
def isTruthy : Value → Bool
  | .vnone => false
  | .int n => n != 0
  | .str s => s != ""
  | .list xs => !xs.isEmpty
  | .dict m => !m.isEmpty

/-- Python's `a or b` on values. -/
def pyOr (a b : Value) : Value := if isTruthy a then a else b

/-- `str.isdigit()`: non-empty and every character a digit. -/
def isDigits (s : String) : Bool := !s.data.isEmpty && s.data.all Char.isDigit

/-- `int(s)` for a digit-only string `s`. -/
def strToNat (s : String) : Nat :=
  s.data.foldl (fun a c => 10 * a + (c.toNat - 48)) 0

/-- Helper for `splitPath`: split a character list on `'.'`, keeping empty
segments, exactly like Python's `str.split('.')`. -/
def splitDotAux : List Char → List (List Char)
  | [] => [[]]
  | c :: cs =>
    match splitDotAux cs with
    | [] => [[]]
    | g :: gs => if c = '.' then [] :: g :: gs else (c :: g) :: gs

/-- `pattern.split('.')` — the Path Parser for the default separator. -/
def splitPath (s : String) : List String :=
  (splitDotAux s.data).map String.mk

/-- `'.'.join(parts)`. -/
def joinDots : List String → String
  | [] => ""
  | [x] => x
  | x :: xs => x ++ "." ++ joinDots xs

/-- `str(key)` for a dict key / list index, as used when building the path
strings yielded by `iterpattern`. -/
def keyStr : Key → String
  | .kInt n => toString n
  | .kStr s => s

/-- The value a key compares equal to when Python's `==` tests it against a
list element (`k in list`).  On the modelled domain (no floats/bools) an
int only equals the same int and a str only the same str. -/
def keyValEq (k : Key) (x : Value) : Bool :=
  match k, x with
  | .kInt n, .int m => (n : Int) == m
  | .kStr s, .str t => s == t
  | _, _ => false

/-- First-match association-list lookup: `m[k]` read / `k in m` test. -/
def dictGet (m : List (Key × Value)) (k : Key) : Option Value :=
  match m with
  | [] => none
  | (k', v) :: rest => if k' = k then some v else dictGet rest k

/-- Dict assignment `m[k] = v`: replace in place if present (keeping the
insertion position), else append. -/
def dictSet (m : List (Key × Value)) (k : Key) (v : Value) : List (Key × Value) :=
  match m with
  | [] => [(k, v)]
  | (k', v') :: rest =>
    if k' = k then (k', v) :: rest else (k', v') :: dictSet rest k v

/-- Dict deletion `del m[k]`: drop the first entry with key `k`. -/
def dictErase (m : List (Key × Value)) (k : Key) : List (Key × Value) :=
  match m with
  | [] => []
  | (k', v') :: rest =>
    if k' = k then rest else (k', v') :: dictErase rest k

/-- `startsChars n h`: `n` is a prefix of `h` (character lists). -/
def startsChars : List Char → List Char → Bool
  | [], _ => true
  | _ :: _, [] => false
  | a :: as, b :: bs => a == b && startsChars as bs

/-- `hasSubChars n h`: `n` occurs as a contiguous run inside `h`. -/
def hasSubChars (n : List Char) : List Char → Bool
  | [] => startsChars n []
  | c :: t => startsChars n (c :: t) || hasSubChars n t

/-- `type(d).__getitem__(d, k)`: the single-step read. -/
def readKey (d : Value) (k : Key) : Except PyErr Value :=
  match d, k with
  | .list xs, .kInt n =>
    match xs[n]? with
    | some v => .ok v
    | none => .error (.indexError "list index out of range")
  | .list _, .kStr _ => .error (.typeError "list indices must be integers")
  | .dict m, _ =>
    match dictGet m k with
    | some v => .ok v
    | none => .error (.keyError (keyStr k))
  | _, _ => .error (.typeError "object is not subscriptable")

/-- `type(d).__setitem__(d, k, v)`: the single-step write.  For a list the
index must already exist (assignment never grows a list). -/
def writeKey (d : Value) (k : Key) (v : Value) : Except PyErr Value :=
  match d, k with
  | .list xs, .kInt n =>
    if n < xs.length then .ok (.list (xs.set n v))
    else .error (.indexError "list assignment index out of range")
  | .list _, .kStr _ => .error (.typeError "list indices must be integers")
  | .dict m, _ => .ok (.dict (dictSet m k v))
  | _, _ => .error (.typeError "object does not support item assignment")

/-- `type(d).__delitem__(d, k)`: the single-step removal. -/
def delKey (d : Value) (k : Key) : Except PyErr Value :=
  match d, k with
  | .list xs, .kInt n =>
    if n < xs.length then .ok (.list (xs.eraseIdx n))
    else .error (.indexError "list assignment index out of range")
  | .list _, .kStr _ => .error (.typeError "list indices must be integers")
  | .dict m, _ =>
    match dictGet m k with
    | some _ => .ok (.dict (dictErase m k))
    | none => .error (.keyError (keyStr k))
  | _, _ => .error (.typeError "object does not support item deletion")

/-- `type(d).__contains__(d, k)` wrapped by the bare `except:` of
`__contains__`: on a dict it is key membership, on a list it is *value*
membership of the (int or str) key, on a string it is the substring test,
and on any other value the `AttributeError` is swallowed into `false`. -/
def containsOp (d : Value) (k : Key) : Bool :=
  match d, k with
  | .dict m, _ => (dictGet m k).isSome
  | .list xs, _ => xs.any (keyValEq k)
  | .str s, .kStr t => hasSubChars t.data s.data
  | _, _ => false

/-- One key-coercion step of `_get_object_and_key` (lines 638–650):
against a list a digit segment becomes an int index (the append symbol is
admitted only when `allowPlus` — final segment and append allowed); against
a dict a digit segment prefers the int key when that key exists; otherwise
the segment stays a string. -/
def coerceKey (d : Value) (k : String) (allowPlus : Bool) : Except PyErr Key :=
  match d with
  | .list _ =>
    if isDigits k then .ok (.kInt (strToNat k))
    else if allowPlus && k == "+" then .ok (.kStr "+")
    else .error (.keyError "Only ints are supported as list indexes, and + as a last index for lists.")
  | .dict m =>
    .ok (if isDigits k && (dictGet m (.kInt (strToNat k))).isSome
         then .kInt (strToNat k) else .kStr k)
  | _ => .ok (.kStr k)

/-- The message of the mid-path container-check failure. -/
def deeperErr (k : Key) : PyErr :=
  .keyError ("Item " ++ keyStr k ++ " cannot be traversed deeper.")

/-- `_get_object_and_key(...)` on pre-split segments: walk the path,
coercing each segment against the current container, reading every segment
but the last and checking the value read is a container; return the parent
and the coerced final key.  (Python returns `(d, None)` for an empty
segment list; that case is unreachable from string paths — `split` never
returns an empty list — and is modelled as an error.) -/
def getObjectAndKey (d : Value) (ks : List String) (allow : Bool) :
    Except PyErr (Value × Key) :=
  match ks with
  | [] => .error (.typeError "empty keyparts")
  | [k] => do
    let key ← coerceKey d k allow
    return (d, key)
  | k :: rest => do
    let key ← coerceKey d k false
    let child ← readKey d key
    if isContainer child then getObjectAndKey child rest allow
    else .error (deeperErr key)

/-- Line 636, `d = data_root or self.data`: resolution starting point. -/
def resolveFrom (selfData dataRoot : Value) (ks : List String) (allow : Bool) :
    Except PyErr (Value × Key) :=
  getObjectAndKey (pyOr dataRoot selfData) ks allow

/-- In-place mutation through the resolved parent, functionally: walk the
path exactly as `getObjectAndKey` does and apply `op` to the resolved
`(parent, key)`, writing the mutated child back on the way up. -/
def mutAt (d : Value) (ks : List String) (allow : Bool)
    (op : Value → Key → Except PyErr Value) : Except PyErr Value :=
  match ks with
  | [] => .error (.typeError "empty keyparts")
  | [k] => do
    let key ← coerceKey d k allow
    op d key
  | k :: rest => do
    let key ← coerceKey d k false
    let child ← readKey d key
    if isContainer child then do
      let child2 ← mutAt child rest allow op
      writeKey d key child2
    else .error (deeperErr key)

/-- The final step of `__setitem__` (lines 424–427): append when the
resolved key is the append symbol (only a list has `append`; on a dict the
attribute lookup raises), else a plain item assignment. -/
def setFinal (v : Value) (d : Value) (key : Key) : Except PyErr Value :=
  if key = .kStr "+" then
    match d with
    | .list xs => .ok (.list (xs ++ [v]))
    | _ => .error (.attributeError "object has no attribute append")
  else writeKey d key v

/-- The raising body of `__getitem__` on pre-split segments. -/
def getItemRawSegs (d : Value) (ks : List String) : Except PyErr Value := do
  let pk ← getObjectAndKey d ks false
  readKey pk.1 pk.2

/-- The raising body of `__getitem__` on a string path. -/
def getItemRaw (d : Value) (p : String) : Except PyErr Value :=
  getItemRawSegs d (splitPath p)

/-- `__getitem__`: silent mode turns any failure into `None`. -/
def getItem (silent : Bool) (d : Value) (p : String) : Except PyErr Value :=
  match getItemRaw d p with
  | .ok v => .ok v
  | .error e => if silent then .ok .vnone else .error e

/-- The raising body of `__setitem__` (append allowed), returning the
mutated root. -/
def setSegsRaw (d : Value) (ks : List String) (v : Value) : Except PyErr Value :=
  mutAt d ks true (setFinal v)

/-- `__setitem__`: silent mode turns any failure into a no-op. -/
def setItem (silent : Bool) (d : Value) (p : String) (v : Value) :
    Except PyErr Value :=
  match setSegsRaw d (splitPath p) v with
  | .ok d2 => .ok d2
  | .error e => if silent then .ok d else .error e

/-- `__contains__`: resolve (append disallowed) and run the single-step
membership test; any failure gives `false`, whatever the failure mode. -/
def containsItem (d : Value) (p : String) : Bool :=
  match getObjectAndKey d (splitPath p) false with
  | .ok (parent, key) => containsOp parent key
  | .error _ => false

/-- The raising body of `__delitem__` (append disallowed), returning the
mutated root. -/
def delSegsRaw (d : Value) (ks : List String) : Except PyErr Value :=
  mutAt d ks false delKey

/-- `__delitem__`: `return type(d).__delitem__(d, k)` inside a bare
`except: return False`.  The Python return value is `None` on success and
`False` on any failure, encoded as `Option.none` / `some false`; the pair
also carries the (possibly mutated) root.  The configured failure mode is
not consulted. -/
def delItemStr (silent : Bool) (d : Value) (p : String) : Value × Option Bool :=
  match delSegsRaw d (splitPath p) with
  | .ok d2 => (d2, Option.none)
  | .error _ => (d, some false)

/-- `_getitem_extended(keyparts=ks, data_root=dr)`: resolve from
`dr or self.data`, read, and degrade any failure to `None` in silent mode. -/
def getitemExtended (silent : Bool) (selfData dataRoot : Value)
    (ks : List String) : Except PyErr Value :=
  match (do
      let pk ← resolveFrom selfData dataRoot ks false
      readKey pk.1 pk.2 : Except PyErr Value) with
  | .ok v => .ok v
  | .error e => if silent then .ok .vnone else .error e

/-- Split a segment list at the first wildcard segment. -/
def splitAtWildcard : List String → Option (List String × List String)
  | [] => none
  | k :: rest =>
    if k = "*" then some ([], rest)
    else (splitAtWildcard rest).map (fun ba => (k :: ba.1, ba.2))

/-- What a finite generator run produces: the pairs yielded, and the
exception (if any) that ended it. -/
structure GenOut where
  items : List (String × Value)
  err : Option PyErr

/-- The `(key, value)` pairs `iterpattern` fans out over at a wildcard:
`dict.items()` in insertion order, or `enumerate(list)`; `none` for a
non-iterable value. -/
def entriesOf : Value → Option (List (String × Value))
  | .dict m => some (m.map (fun kv => (keyStr kv.1, kv.2)))
  | .list xs => some (xs.enum.map (fun iv => (toString iv.1, iv.2)))
  | _ => none

/-- The inner loop of `iterpattern`'s recursive case: stitch the results of
the per-entry recursive expansions together, prefixing keys; an exception
from a sub-expansion ends the whole generator. -/
def chainSubs (pre : String) : List (String × GenOut) → GenOut
  | [] => ⟨[], none⟩
  | (k, g) :: rest =>
    let its := g.items.map (fun kv => (pre ++ k ++ "." ++ kv.1, kv.2))
    match g.err with
    | some e => ⟨its, some e⟩
    | none =>
      let r := chainSubs pre rest
      ⟨its ++ r.items, r.err⟩

theorem splitAtWildcard_after_lt {ks before after : List String}
    (h : splitAtWildcard ks = some (before, after)) :
    after.length < ks.length := by
  induction ks generalizing before after with
  | nil => simp [splitAtWildcard] at h
  | cons k rest ih =>
    by_cases hk : k = "*"
    · simp [splitAtWildcard, hk] at h
      obtain ⟨-, rfl⟩ := h
      simp [Nat.lt_succ_self]
    · simp [splitAtWildcard, hk] at h
      obtain ⟨a, hba, -⟩ := h
      have hlt := ih hba
      simp only [List.length_cons]
      omega

/-- The recursion of `iterpattern` on pre-split segments, with an explicit
`data_root` argument (`Value.vnone` models the Python default `None`);
faithful to the source including the two `or self.data` defaults (lines
503 and 636).  The `fuel` argument exists only to make the recursion
structural; each recursive call strictly shortens the segment list
(`splitAtWildcard_after_lt`), so any `fuel ≥ keyparts.length` — as
supplied by `iterpatternSegs` — makes the `0` branch unreachable. -/
def iterpatternFuel (silent : Bool) (selfData : Value) :
    Nat → List String → Value → GenOut
  | 0, _, _ => ⟨[], some (.typeError "unreachable: fuel exhausted")⟩
  | fuel + 1, keyparts, dataRoot =>
    let dr := pyOr dataRoot selfData
    match splitAtWildcard keyparts with
    | some ba =>
      let before := ba.1
      let after := ba.2
      let pre := if before.isEmpty then "" else joinDots before ++ "."
      let vcwE : Except PyErr Value :=
        if before.isEmpty then .ok selfData
        else getitemExtended silent selfData dr before
      match vcwE with
      | .error e => ⟨[], some e⟩
      | .ok vcw =>
        match entriesOf vcw with
        | none =>
          if silent then ⟨[], none⟩
          else ⟨[], some (.valueError "Cannot iterate over an object of this type")⟩
        | some ents =>
          if after.isEmpty then
            ⟨ents.map (fun kv => (pre ++ kv.1, kv.2)), none⟩
          else
            chainSubs pre
              (ents.map (fun kv => (kv.1, iterpatternFuel silent selfData fuel after kv.2)))
    | none =>
      match getitemExtended silent selfData dr keyparts with
      | .ok v => ⟨[(joinDots keyparts, v)], none⟩
      | .error e => ⟨[], some e⟩

/-- `iterpattern(pattern=None, keyparts=ks, data_root=dr)` — the recursive
entry point. -/
def iterpatternSegs (silent : Bool) (selfData : Value) (keyparts : List String)
    (dataRoot : Value) : GenOut :=
  iterpatternFuel silent selfData keyparts.length keyparts dataRoot

/-- `iterpattern(pattern)` as called publicly (data_root defaulted). -/
def iterpatternStr (silent : Bool) (selfData : Value) (pattern' : String) :
    GenOut :=
  iterpatternSegs silent selfData (splitPath pattern') Value.vnone

/-- The filtering loop of `filterpattern`: keep the pairs accepted by `f`,
stop after `maxc` accepted ones; the second component records whether the
loop broke early (in which case the source generator's pending exception is
never reached). -/
def filterGo (f : Value → Bool) (maxc : Option Nat) :
    List (String × Value) → Nat → List (String × Value) × Bool
  | [], _ => ([], false)
  | (k, v) :: rest, cnt =>
    if f v then
      match maxc with
      | some m =>
        if m ≤ cnt + 1 then ([(k, v)], true)
        else
          let r := filterGo f maxc rest (cnt + 1)
          ((k, v) :: r.1, r.2)
      | none =>
        let r := filterGo f maxc rest (cnt + 1)
        ((k, v) :: r.1, r.2)
    else filterGo f maxc rest cnt

/-- Calling the generator function `filterpattern(...)`: in Python a call
to a generator function executes none of its body (not even the
`callable(filter_lambda)` check) — it only builds the generator object, so
the call itself never raises.  A non-callable `filter_lambda` argument is
modelled as `Option.none`. -/
def filterpatternCall (_silent : Bool) (_selfData : Value) (_pattern : String)
    (_flam : Option (Value → Bool)) (_maxc : Option Nat) : Except PyErr Unit :=
  .ok ()

/-- Consuming the generator returned by `filterpattern`: the body first
validates the predicate (raising `ValueError` before yielding anything if
it is not callable), then lazily filters `iterpattern`'s output. -/
def filterpatternRun (silent : Bool) (selfData : Value) (pattern' : String)
    (flam : Option (Value → Bool)) (maxc : Option Nat) : GenOut :=
  match flam with
  | none => ⟨[], some (.valueError "filter_lambda parameter must be callable")⟩
  | some f =>
    let g := iterpatternStr silent selfData pattern'
    let r := filterGo f maxc g.items 0
    ⟨r.1, if r.2 then none else g.err⟩

/-! ## Unfolding and bookkeeping lemmas -/

theorem exceptBind_ok {α β : Type} (a : α) (f : α → Except PyErr β) :
    (do let x ← Except.ok a; f x) = f a := rfl

theorem exceptBind_err {α β : Type} (e : PyErr) (f : α → Except PyErr β) :
    (do let x ← (Except.error e : Except PyErr α); f x)
      = (Except.error e : Except PyErr β) := rfl

theorem gok_one (d : Value) (k : String) (allow : Bool) :
    getObjectAndKey d [k] allow
      = (do let key ← coerceKey d k allow; return (d, key)) := rfl

theorem gok_cons2 (d : Value) (k r : String) (rs : List String) (allow : Bool) :
    getObjectAndKey d (k :: r :: rs) allow
      = (do
          let key ← coerceKey d k false
          let child ← readKey d key
          if isContainer child then getObjectAndKey child (r :: rs) allow
          else .error (deeperErr key)) := rfl

theorem mutAt_one (d : Value) (k : String) (allow : Bool)
    (op : Value → Key → Except PyErr Value) :
    mutAt d [k] allow op
      = (do let key ← coerceKey d k allow; op d key) := rfl

theorem mutAt_cons2 (d : Value) (k r : String) (rs : List String) (allow : Bool)
    (op : Value → Key → Except PyErr Value) :
    mutAt d (k :: r :: rs) allow op
      = (do
          let key ← coerceKey d k false
          let child ← readKey d key
          if isContainer child then do
            let child2 ← mutAt child (r :: rs) allow op
            writeKey d key child2
          else .error (deeperErr key)) := rfl

/-- Succeeding with the append symbol disallowed, a coercion step gives the
same key whatever the `allowPlus` flag (the flag only adds the `+` case). -/
theorem coerce_mono {d : Value} {k : String} {key : Key}
    (h : coerceKey d k false = .ok key) (b : Bool) :
    coerceKey d k b = .ok key := by
  cases d <;> simp_all [coerceKey]
  by_cases hd : isDigits k = true <;> simp_all

/-- First-match lookup after a replace-or-append write. -/
theorem dictGet_set (m : List (Key × Value)) (k k2 : Key) (v : Value) :
    dictGet (dictSet m k v) k2 = if k2 = k then some v else dictGet m k2 := by
  induction m with
  | nil =>
    simp only [dictSet, dictGet]
    by_cases h2 : k2 = k
    · subst h2; simp
    · rw [if_neg (fun hh => h2 hh.symm), if_neg h2]
  | cons kv rest ih =>
    obtain ⟨k', v'⟩ := kv
    simp only [dictSet]
    by_cases h1 : k' = k
    · subst h1
      simp only [if_pos rfl, dictGet]
      by_cases h2 : k' = k2
      · subst h2; simp
      · rw [if_neg h2, if_neg (fun hh => h2 hh.symm), if_neg h2]
    · rw [if_neg h1]
      simp only [dictGet]
      by_cases h2 : k' = k2
      · subst h2
        rw [if_pos rfl, if_neg h1]
        simp [dictGet]
      · rw [if_neg h2, ih]
        by_cases h3 : k2 = k
        · simp [h3]
        · simp [h3, h2]

/-- After erasing a key from a dict with no duplicate keys, lookup of that
key fails. -/
theorem dictGet_erase_self {m : List (Key × Value)} {k : Key}
    (hnd : (m.map Prod.fst).Nodup) : dictGet (dictErase m k) k = none := by
  induction m with
  | nil => simp [dictErase, dictGet]
  | cons kv rest ih =>
    obtain ⟨k', v'⟩ := kv
    simp only [List.map_cons, List.nodup_cons] at hnd
    by_cases h1 : k' = k
    · subst h1
      cases hg : dictGet rest k' with
      | none => simp [dictErase, hg]
      | some w =>
        exfalso
        apply hnd.1
        clear ih hnd
        induction rest with
        | nil => simp [dictGet] at hg
        | cons kv2 r2 ih2 =>
          obtain ⟨k2, v2⟩ := kv2
          simp only [dictGet] at hg
          by_cases h2 : k2 = k'
          · simp [h2]
          · simp only [h2, if_false] at hg
            simp [ih2 hg]
    · simp [dictErase, dictGet, h1, ih hnd.2]

/-- A successful read implies the parent is a list or a dict. -/
theorem read_isContainer {d : Value} {k : Key} {w : Value}
    (h : readKey d k = .ok w) : isContainer d = true := by
  cases d <;> simp_all [readKey, isContainer]

/-- Writing at a key that reads successfully: the write succeeds, reads the
written value back, leaves every coercion step unchanged, and the result is
still a container. -/
theorem write_of_read {d : Value} {k : Key} {w : Value}
    (h : readKey d k = .ok w) (v : Value) :
    ∃ d2, writeKey d k v = .ok d2 ∧ readKey d2 k = .ok v ∧
      (∀ s b, coerceKey d2 s b = coerceKey d s b) ∧ isContainer d2 = true := by
  cases d with
  | list xs =>
    cases k with
    | kInt n =>
      simp only [readKey] at h
      cases hg : xs[n]? with
      | none => simp [hg] at h
      | some u =>
        have hlt : n < xs.length := (List.getElem?_eq_some.mp hg).1
        refine ⟨.list (xs.set n v), ?_, ?_, ?_, rfl⟩
        · simp [writeKey, hlt]
        · simp [readKey, List.getElem?_set_eq_of_lt v hlt]
        · intro s b; rfl
    | kStr s => simp [readKey] at h
  | dict m =>
    simp only [readKey] at h
    cases hg : dictGet m k with
    | none => simp [hg] at h
    | some u =>
      refine ⟨.dict (dictSet m k v), rfl, ?_, ?_, rfl⟩
      · simp [readKey, dictGet_set]
      · intro s b
        simp only [coerceKey]
        congr 1
        have hiss : (dictGet (dictSet m k v) (.kInt (strToNat s))).isSome
            = (dictGet m (.kInt (strToNat s))).isSome := by
          rw [dictGet_set]
          by_cases he : Key.kInt (strToNat s) = k
          · rw [if_pos he, he, hg]; rfl
          · rw [if_neg he]
        rw [hiss]
  | vnone => simp [readKey] at h
  | int n => simp [readKey] at h
  | str s => simp [readKey] at h

/-- A successful resolution ends by coercing the final segment against the
returned parent. -/
theorem res_last {allow : Bool} :
    ∀ (segs : List String) (d parent : Value) (key : Key),
    getObjectAndKey d segs allow = .ok (parent, key) →
    ∃ ls, segs.getLast? = some ls ∧ coerceKey parent ls allow = .ok key := by
  intro segs
  induction segs with
  | nil => intro d parent key h; simp [getObjectAndKey] at h
  | cons k rest ih =>
    intro d parent key h
    cases rest with
    | nil =>
      rw [gok_one] at h
      cases hc : coerceKey d k allow with
      | error e => rw [hc, exceptBind_err] at h; exact absurd h (by simp)
      | ok key0 =>
        rw [hc, exceptBind_ok] at h
        simp only [pure, Except.pure, Except.ok.injEq, Prod.mk.injEq] at h
        exact ⟨k, rfl, by rw [← h.1, hc, h.2]⟩
    | cons r rs =>
      rw [gok_cons2] at h
      cases hc : coerceKey d k false with
      | error e => rw [hc, exceptBind_err] at h; exact absurd h (by simp)
      | ok key0 =>
        rw [hc, exceptBind_ok] at h
        cases hr : readKey d key0 with
        | error e => rw [hr, exceptBind_err] at h; exact absurd h (by simp)
        | ok child =>
          rw [hr, exceptBind_ok] at h
          by_cases hcont : isContainer child = true
          · rw [if_pos hcont] at h
            obtain ⟨ls, h1, h2⟩ := ih child parent key h
            exact ⟨ls, by rw [List.getLast?_cons_cons]; exact h1, h2⟩
          · simp only [hcont, if_false] at h
            exact absurd h (by simp)

/-- Master lemma: when a path resolves (append disallowed) to
`(parent, key)` and the final operation `op` rewrites the parent into a
container `parent2`, the corresponding in-place mutation succeeds, and the
mutated root re-resolves along the same path to `parent2` (with whatever
key the final segment now coerces to against `parent2`). -/
theorem mutAt_resolved (op : Value → Key → Except PyErr Value) (allow : Bool) :
    ∀ (segs : List String) (d parent : Value) (key : Key) (parent2 : Value),
    getObjectAndKey d segs false = .ok (parent, key) →
    op parent key = .ok parent2 →
    isContainer parent2 = true →
    ∃ d2, mutAt d segs allow op = .ok d2 ∧ isContainer d2 = true ∧
      ∀ ls key2, segs.getLast? = some ls →
        coerceKey parent2 ls false = .ok key2 →
        getObjectAndKey d2 segs false = .ok (parent2, key2) := by
  intro segs
  induction segs with
  | nil =>
    intro d parent key parent2 h _ _
    simp [getObjectAndKey] at h
  | cons k rest ih =>
    intro d parent key parent2 h hop hpc
    cases rest with
    | nil =>
      rw [gok_one] at h
      cases hc : coerceKey d k false with
      | error e => rw [hc, exceptBind_err] at h; exact absurd h (by simp)
      | ok key0 =>
        rw [hc, exceptBind_ok] at h
        simp only [pure, Except.pure, Except.ok.injEq, Prod.mk.injEq] at h
        obtain ⟨hd, hk⟩ := h
        subst hd; subst hk
        refine ⟨parent2, ?_, hpc, ?_⟩
        · rw [mutAt_one, coerce_mono hc allow, exceptBind_ok]
          exact hop
        · intro ls key2 hls hcl
          simp only [List.getLast?_singleton, Option.some.injEq] at hls
          subst hls
          rw [gok_one, hcl, exceptBind_ok]
          rfl
    | cons r rs =>
      rw [gok_cons2] at h
      cases hc : coerceKey d k false with
      | error e => rw [hc, exceptBind_err] at h; exact absurd h (by simp)
      | ok key0 =>
        rw [hc, exceptBind_ok] at h
        cases hr : readKey d key0 with
        | error e => rw [hr, exceptBind_err] at h; exact absurd h (by simp)
        | ok child =>
          rw [hr, exceptBind_ok] at h
          by_cases hcont : isContainer child = true
          · rw [if_pos hcont] at h
            obtain ⟨c2, hmut, hcc2, hreres⟩ := ih child parent key parent2 h hop hpc
            obtain ⟨d2, hw, hrd2, hcoe, hcd2⟩ := write_of_read hr c2
            refine ⟨d2, ?_, hcd2, ?_⟩
            · rw [mutAt_cons2, hc, exceptBind_ok, hr, exceptBind_ok, if_pos hcont,
                  hmut, exceptBind_ok]
              exact hw
            · intro ls key2 hls hcl
              rw [List.getLast?_cons_cons] at hls
              rw [gok_cons2, hcoe, hc, exceptBind_ok, hrd2, exceptBind_ok,
                  if_pos hcc2]
              exact hreres ls key2 hls hcl
          · simp only [hcont, if_false] at h
            exact absurd h (by simp)

/-- Resolving a path with one extra final segment first resolves the
original path (as intermediate steps, i.e. with append disallowed), reads
and container-checks the value there, then coerces the extra segment. -/
theorem gok_append_last (t : String) (allow : Bool) :
    ∀ (segs : List String) (d : Value), segs ≠ [] →
    getObjectAndKey d (segs ++ [t]) allow
      = (do
          let pk ← getObjectAndKey d segs false
          let child ← readKey pk.1 pk.2
          if isContainer child then getObjectAndKey child [t] allow
          else .error (deeperErr pk.2)) := by
  intro segs
  induction segs with
  | nil => intro d hne; exact absurd rfl hne
  | cons k rest ih =>
    intro d _
    cases rest with
    | nil =>
      show getObjectAndKey d [k, t] allow = _
      rw [gok_cons2, gok_one]
      cases hc : coerceKey d k false with
      | error e => rfl
      | ok key0 => rfl
    | cons r rs =>
      show getObjectAndKey d (k :: r :: (rs ++ [t])) allow = _
      rw [gok_cons2, gok_cons2]
      cases hc : coerceKey d k false with
      | error e => rfl
      | ok key0 =>
        simp only [exceptBind_ok]
        cases hr : readKey d key0 with
        | error e => rfl
        | ok child =>
          simp only [exceptBind_ok]
          by_cases hcont : isContainer child = true
          · simp only [if_pos hcont]
            exact ih child (by simp)
          · simp only [if_neg hcont]
            rfl

/-- The mutation analogue of `gok_append_last`. -/
theorem mutAt_append_last (t : String) (allow : Bool)
    (op : Value → Key → Except PyErr Value) :
    ∀ (segs : List String) (d : Value), segs ≠ [] →
    mutAt d (segs ++ [t]) allow op
      = mutAt d segs false (fun pv pk => do
          let child ← readKey pv pk
          if isContainer child then do
            let c2 ← mutAt child [t] allow op
            writeKey pv pk c2
          else .error (deeperErr pk)) := by
  intro segs
  induction segs with
  | nil => intro d hne; exact absurd rfl hne
  | cons k rest ih =>
    intro d _
    cases rest with
    | nil =>
      show mutAt d [k, t] allow op = _
      rw [mutAt_cons2, mutAt_one]
    | cons r rs =>
      show mutAt d (k :: r :: (rs ++ [t])) allow op = _
      rw [mutAt_cons2, mutAt_cons2]
      cases hc : coerceKey d k false with
      | error e => rfl
      | ok key0 =>
        simp only [exceptBind_ok]
        cases hr : readKey d key0 with
        | error e => rfl
        | ok child =>
          simp only [exceptBind_ok]
          by_cases hcont : isContainer child = true
          · simp only [if_pos hcont]
            have hih := ih child (by simp)
            rw [List.cons_append] at hih
            rw [hih]
          · simp only [if_neg hcont]

/-! ## Claim theorems -/

/-- C1 (counterexample): the round-trip claim fails as stated.  On the
wrapper of `{"+": 0}` the path `"+"` is a valid non-wildcard path that
resolves (`get` returns `0`), yet `set("+", 5)` does not store `5`: the
resolved key equals the append symbol, so `__setitem__` calls `d.append`,
which a dict does not have.  In silent mode the set is a no-op and the
subsequent get still returns `0 ≠ 5`; in strict mode the set raises
`AttributeError`. -/
theorem c1_roundtrip_counterexample :
    (getItemRaw (.dict [(.kStr "+", .int 0)]) "+" = .ok (.int 0)) ∧
    (setItem true (.dict [(.kStr "+", .int 0)]) "+" (.int 5)
       = .ok (.dict [(.kStr "+", .int 0)])) ∧
    (getItem true (.dict [(.kStr "+", .int 0)]) "+" = .ok (.int 0)) ∧
    (setItem false (.dict [(.kStr "+", .int 0)]) "+" (.int 5)
       = .error (.attributeError "object has no attribute append")) ∧
    (Value.int 0 ≠ Value.int 5) := by
  refine ⟨rfl, rfl, rfl, rfl, ?_⟩
  intro h
  injection h with h0
  exact absurd h0 (by decide)

/-- C1 (amended): for every path that resolves (append disallowed) and
whose final coerced key is not the append symbol, and for every value `v`,
`set` succeeds and a subsequent `get` on the updated wrapper returns `v`,
in either failure mode. -/
theorem c1_set_get_roundtrip (silent : Bool) (d : Value) (p : String)
    (parent : Value) (key : Key) (w v : Value)
    (hres : getObjectAndKey d (splitPath p) false = .ok (parent, key))
    (hread : readKey parent key = .ok w)
    (hkey : key ≠ .kStr "+") :
    ∃ d2, setItem silent d p v = .ok d2 ∧ getItem silent d2 p = .ok v := by
  obtain ⟨parent2, hw, hrd, hcoe, hcont2⟩ := write_of_read hread v
  have hop : setFinal v parent key = .ok parent2 := by
    unfold setFinal
    rw [if_neg hkey]
    exact hw
  obtain ⟨d2, hmut, hcontd2, hreres⟩ :=
    mutAt_resolved (setFinal v) true (splitPath p) d parent key parent2 hres hop hcont2
  obtain ⟨ls, hls, hcl⟩ := res_last (splitPath p) d parent key hres
  have hcl2 : coerceKey parent2 ls false = .ok key := by
    rw [hcoe]; exact hcl
  have hgok2 := hreres ls key hls hcl2
  refine ⟨d2, ?_, ?_⟩
  · simp only [setItem, setSegsRaw, hmut]
  · simp only [getItem, getItemRaw, getItemRawSegs, hgok2, exceptBind_ok, hrd]

/-- C1 witness: a concrete instantiation of the amended round-trip. -/
theorem c1_set_get_roundtrip_witness :
    ∃ d2, setItem true (.dict [(.kStr "a", .int 1)]) "a" (.int 7) = .ok d2 ∧
      getItem true d2 "a" = .ok (.int 7) :=
  c1_set_get_roundtrip true (.dict [(.kStr "a", .int 1)]) "a"
    (.dict [(.kStr "a", .int 1)]) (.kStr "a") (.int 1) (.int 7) rfl rfl
    (by decide)

/-- C2: on any path whose raising read fails, silent-mode `get` returns the
`None` sentinel and strict-mode `get` propagates that same error. -/
theorem c2_silent_strict_get (d : Value) (p : String) (e : PyErr)
    (h : getItemRaw d p = .error e) :
    getItem true d p = .ok .vnone ∧ getItem false d p = .error e := by
  constructor <;> simp [getItem, h]

/-- C2 witness: missing dict key. -/
theorem c2_silent_strict_get_witness :
    getItem true (.dict [(.kStr "a", .int 1)]) "b" = .ok .vnone ∧
    getItem false (.dict [(.kStr "a", .int 1)]) "b" = .error (.keyError "b") :=
  c2_silent_strict_get (.dict [(.kStr "a", .int 1)]) "b" (.keyError "b") rfl

/-- C3 (counterexample): a successful delete does not return `true`.
Deleting the existing key `"a"` removes the entry, but the Python return
value is that of `dict.__delitem__`, i.e. `None` (modelled `Option.none`),
not the boolean `True` the claim states. -/
theorem c3_delete_counterexample :
    delItemStr true (.dict [(.kStr "a", .int 1)]) "a" = (.dict [], Option.none) ∧
    delItemStr false (.dict [(.kStr "a", .int 1)]) "a" = (.dict [], Option.none) ∧
    (delItemStr true (.dict [(.kStr "a", .int 1)]) "a").2 ≠ some true := by
  refine ⟨rfl, rfl, ?_⟩
  intro h
  cases h

/-- C3 (amended): `delete` never raises and ignores the configured failure
mode; on any error it returns `False`, and on success it returns the
underlying container delete's return value `None` — so it never returns a
boolean `true`. -/
theorem c3_delete_total (silent : Bool) (d : Value) (p : String) :
    delItemStr silent d p = delItemStr true d p ∧
    (delItemStr silent d p).2 ≠ some true ∧
    ((delItemStr silent d p).2 = Option.none ∨
      (delItemStr silent d p).2 = some false) := by
  refine ⟨rfl, ?_, ?_⟩ <;>
    cases h : delSegsRaw d (splitPath p) <;> simp [delItemStr, h]

/-- C4 (counterexample): delete-then-absent fails as stated.  On the list
`[5, 0, 1]` the path `"1"` resolves (to the element `0`); deleting it
returns `None` (not `true`) and shrinks the list to `[5, 1]`, after which
`has("1")` is *value* membership of the integer `1` in the list — which
still holds, so `has` returns `true`, not `false`. -/
theorem c4_delete_then_absent_counterexample :
    (getItemRaw (.list [.int 5, .int 0, .int 1]) "1" = .ok (.int 0)) ∧
    (delItemStr true (.list [.int 5, .int 0, .int 1]) "1"
       = (.list [.int 5, .int 1], Option.none)) ∧
    ((delItemStr true (.list [.int 5, .int 0, .int 1]) "1").2 ≠ some true) ∧
    (containsItem (.list [.int 5, .int 1]) "1" = true) := by
  refine ⟨rfl, rfl, ?_, rfl⟩
  intro h
  cases h

/-- C4 (amended): when the resolved parent is a dict with no duplicate
keys, the resolved key is present, and the final segment is not digit-only
(so re-resolution cannot fall back to a different, integer-keyed entry),
`delete` succeeds — returning the underlying `None`, not `false` — and a
subsequent `has` on the same wrapper returns `false`. -/
theorem c4_delete_then_absent (silent : Bool) (d : Value) (p : String)
    (m : List (Key × Value)) (s : String) (w : Value)
    (hres : getObjectAndKey d (splitPath p) false = .ok (.dict m, .kStr s))
    (hdig : isDigits s = false)
    (hget : dictGet m (.kStr s) = some w)
    (hnd : (m.map Prod.fst).Nodup) :
    ∃ d2, delSegsRaw d (splitPath p) = .ok d2 ∧
      delItemStr silent d p = (d2, Option.none) ∧
      containsItem d2 p = false := by
  have hop : delKey (.dict m) (.kStr s) = .ok (.dict (dictErase m (.kStr s))) := by
    simp [delKey, hget]
  obtain ⟨d2, hmut, hcontd2, hreres⟩ :=
    mutAt_resolved delKey false (splitPath p) d (.dict m) (.kStr s)
      (.dict (dictErase m (.kStr s))) hres hop rfl
  obtain ⟨ls, hls, hcl⟩ := res_last (splitPath p) d (.dict m) (.kStr s) hres
  have hlss : ls = s := by
    simp only [coerceKey, Except.ok.injEq] at hcl
    by_cases hcnd :
        (isDigits ls && (dictGet m (Key.kInt (strToNat ls))).isSome) = true
    · rw [if_pos hcnd] at hcl
      exact absurd hcl (by simp)
    · rw [if_neg hcnd] at hcl
      exact Key.kStr.inj hcl
  have hcl2 : coerceKey (.dict (dictErase m (.kStr s))) ls false
      = .ok (.kStr s) := by
    subst hlss
    simp [coerceKey, hdig]
  have hgok2 := hreres ls (.kStr s) hls hcl2
  have hdel : delSegsRaw d (splitPath p) = .ok d2 := hmut
  refine ⟨d2, hdel, ?_, ?_⟩
  · simp only [delItemStr, hdel]
  · simp only [containsItem, hgok2, containsOp]
    simp [dictGet_erase_self hnd]

/-- C4 witness: deleting `"a"` from `{"a": 1, "b": 2}`. -/
theorem c4_delete_then_absent_witness :
    ∃ d2, delSegsRaw (.dict [(.kStr "a", .int 1), (.kStr "b", .int 2)])
        (splitPath "a") = .ok d2 ∧
      delItemStr true (.dict [(.kStr "a", .int 1), (.kStr "b", .int 2)]) "a"
        = (d2, Option.none) ∧
      containsItem d2 "a" = false :=
  c4_delete_then_absent true
    (.dict [(.kStr "a", .int 1), (.kStr "b", .int 2)]) "a"
    [(.kStr "a", .int 1), (.kStr "b", .int 2)] "a" (.int 1)
    rfl rfl rfl (by decide)

/-- A digit character is not the separator. -/
theorem digit_ne_dot {c : Char} (h : c.isDigit = true) : c ≠ '.' := by
  intro h0
  subst h0
  exact absurd h (by decide)

/-- Splitting a string with no separator character gives back the single
segment. -/
theorem splitDotAux_no_dot :
    ∀ cs : List Char, '.' ∉ cs → splitDotAux cs = [cs] := by
  intro cs
  induction cs with
  | nil => intro _; rfl
  | cons c rest ih =>
    intro hmem
    have hc : c ≠ '.' := by
      intro h0; exact hmem (by rw [h0]; exact List.mem_cons_self _ _)
    have hrest : '.' ∉ rest := fun hr => hmem (List.mem_cons_of_mem _ hr)
    rw [splitDotAux, ih hrest]
    simp [fun h0 : c = '.' => hc h0]

/-- A digit-only path string is a single segment. -/
theorem splitPath_digits {s : String} (h : isDigits s = true) :
    splitPath s = [s] := by
  have hnd : '.' ∉ s.data := by
    intro hmem
    simp only [isDigits, Bool.and_eq_true, List.all_eq_true] at h
    exact absurd rfl (digit_ne_dot (h.2 '.' hmem))
  rw [splitPath, splitDotAux_no_dot s.data hnd]
  rfl

/-- C8: a digit-only segment resolved against a dict prefers the existing
integer key and otherwise falls back to the string key.  Part one states
the key-coercion rule itself — `coerceKey` is the single coercion step used
by `getObjectAndKey` (get / has resolution) and by `mutAt` (set / delete
mutation) at every path position.  Part two observes it through `get`: when
the integer key exists, `get` returns its value even if a distinct value
sits under the string key. -/
theorem c8_numeric_key_precedence :
    (∀ (m : List (Key × Value)) (s : String) (b : Bool), isDigits s = true →
      coerceKey (.dict m) s b
        = .ok (if (dictGet m (.kInt (strToNat s))).isSome
               then .kInt (strToNat s) else .kStr s)) ∧
    (∀ (silent : Bool) (m : List (Key × Value)) (s : String) (vI : Value),
      isDigits s = true →
      dictGet m (.kInt (strToNat s)) = some vI →
      getItem silent (.dict m) s = .ok vI) := by
  constructor
  · intro m s b hd
    simp [coerceKey, hd]
  · intro silent m s vI hd hg
    have hgok : getObjectAndKey (.dict m) [s] false
        = .ok (.dict m, .kInt (strToNat s)) := by
      rw [gok_one]
      simp [coerceKey, hd, hg]
    simp [getItem, getItemRaw, splitPath_digits hd, getItemRawSegs, hgok,
          exceptBind_ok, readKey, hg]

/-- C8 witness: in `{1: 10, "1": 20}` the digit segment `"1"` coerces to
the integer key and `get("1")` returns `10`, not `20`. -/
theorem c8_numeric_key_precedence_witness :
    (coerceKey (.dict [(.kInt 1, .int 10), (.kStr "1", .int 20)]) "1" false
       = .ok (.kInt 1)) ∧
    (getItem true (.dict [(.kInt 1, .int 10), (.kStr "1", .int 20)]) "1"
       = .ok (.int 10)) := by
  constructor
  · have h := c8_numeric_key_precedence.1
      [(.kInt 1, .int 10), (.kStr "1", .int 20)] "1" false rfl
    rw [h]
    rfl
  · exact c8_numeric_key_precedence.2 true
      [(.kInt 1, .int 10), (.kStr "1", .int 20)] "1" (.int 10) rfl rfl

/-- C9 (counterexample): the claim says a non-callable predicate makes
`filterpattern` fail at call time, before any element is consumed.  In the
source `filterpattern` is a generator function, so the call executes none
of its body: it returns a generator and raises nothing; the
`callable(filter_lambda)` check only runs — and raises — when the first
element is requested. -/
theorem c9_call_time_counterexample :
    filterpatternCall true (.list [.int 1]) "*" none none = .ok () ∧
    filterpatternRun true (.list [.int 1]) "*" none none
      = ⟨[], some (.valueError "filter_lambda parameter must be callable")⟩ :=
  ⟨rfl, rfl⟩

/-- C9 (amended): for every pattern, wrapper and failure mode, calling
`filterpattern` with a non-callable predicate succeeds (generator
construction runs no body code), and the input-validation `ValueError` is
raised unconditionally — regardless of failure mode — as soon as the first
element of the result is requested, before any pair is yielded. -/
theorem c9_filterpattern_lazy_validation (silent : Bool) (selfData : Value)
    (pattern' : String) (maxc : Option Nat) :
    filterpatternCall silent selfData pattern' none maxc = .ok () ∧
    filterpatternRun silent selfData pattern' none maxc
      = ⟨[], some (.valueError "filter_lambda parameter must be callable")⟩ :=
  ⟨rfl, rfl⟩

/-- Python `==` between an int and a value, specialised: only the same int
matches. -/
theorem keyValEq_int {n : Nat} {x : Value} :
    keyValEq (.kInt n) x = true ↔ x = .int n := by
  cases x with
  | int m =>
    simp only [keyValEq, beq_iff_eq]
    constructor
    · intro h; rw [← h]
    · intro h
      injection h with h0
      rw [h0]
  | vnone => simp [keyValEq]
  | str s => simp [keyValEq]
  | list xs => simp [keyValEq]
  | dict mm => simp [keyValEq]

/-- C10: when a path's parent resolves to a list with an integer-coerced
(digit) final segment, `has` is *value* membership: it returns true exactly
when the integer occurs among the list's elements, independently of whether
the index is in range. -/
theorem c10_contains_value_membership (d : Value) (p : String)
    (xs : List Value) (n : Nat)
    (hres : getObjectAndKey d (splitPath p) false = .ok (.list xs, .kInt n)) :
    containsItem d p = true ↔ Value.int n ∈ xs := by
  rw [containsItem, hres]
  show xs.any (keyValEq (.kInt n)) = true ↔ _
  rw [List.any_eq_true]
  constructor
  · rintro ⟨x, hmem, hk⟩
    rw [keyValEq_int.mp hk] at hmem
    exact hmem
  · intro hmem
    exact ⟨.int n, hmem, keyValEq_int.mpr rfl⟩

/-- C10 witness: on the list `[5, 0, 1]`, `has("5")` is true although index
5 is out of range (the value 5 occurs), because membership is by value. -/
theorem c10_contains_value_membership_witness :
    containsItem (.list [.int 5, .int 0, .int 1]) "5" = true ↔
      Value.int 5 ∈ [Value.int 5, Value.int 0, Value.int 1] :=
  c10_contains_value_membership (.list [.int 5, .int 0, .int 1]) "5"
    [.int 5, .int 0, .int 1] 5 rfl

theorem pyOr_vnone (b : Value) : pyOr .vnone b = b := rfl

theorem pyOr_self (a : Value) : pyOr a a = a := by
  by_cases h : isTruthy a = true <;> simp [pyOr, h]

/-- A successful raising read means the segment list was non-empty. -/
theorem segs_ne_nil_of_ok {d : Value} {ks : List String} {v : Value}
    (h : getItemRawSegs d ks = .ok v) : ks ≠ [] := by
  intro h0
  subst h0
  simp [getItemRawSegs, getObjectAndKey, exceptBind_err] at h

/-- Appending a wildcard to a wildcard-free segment list splits exactly
there. -/
theorem splitAtWildcard_no_wild :
    ∀ ks : List String, "*" ∉ ks → splitAtWildcard (ks ++ ["*"]) = some (ks, []) := by
  intro ks
  induction ks with
  | nil => intro _; simp [splitAtWildcard]
  | cons k rest ih =>
    intro h
    have hk : k ≠ "*" := fun h0 => h (by rw [h0]; exact List.mem_cons_self _ _)
    have hrest : "*" ∉ rest := fun hr => h (List.mem_cons_of_mem _ hr)
    simp [splitAtWildcard, hk, ih hrest]

/-- The trailing-wildcard case of the pattern engine: with the prefix
wildcard-free and resolving to a list, the expansion enumerates the list in
index order. -/
theorem iterFuel_wild_last (silent : Bool) (selfData : Value)
    (before : List String) (dataRoot : Value) (fuel : Nat) (xs : List Value)
    (hnw : "*" ∉ before) (hne : before ≠ [])
    (hget : getitemExtended silent selfData (pyOr dataRoot selfData) before
      = .ok (.list xs)) :
    iterpatternFuel silent selfData (fuel + 1) (before ++ ["*"]) dataRoot
      = ⟨xs.enum.map
          (fun iv => (joinDots before ++ "." ++ toString iv.1, iv.2)), none⟩ := by
  obtain ⟨b0, bs, rfl⟩ : ∃ b0 bs, before = b0 :: bs := by
    cases before with
    | nil => exact absurd rfl hne
    | cons a l => exact ⟨a, l, rfl⟩
  simp only [iterpatternFuel, splitAtWildcard_no_wild _ hnw, hget,
    List.isEmpty_cons, entriesOf, List.isEmpty_nil, if_true, if_false,
    Bool.false_eq_true, ite_false, ite_true]
  simp only [List.map_map]
  congr 1

/-- C5: for a path `P` (wildcard-free, resolving to a list of `N`
elements), `iterpattern(P + ".*")` yields exactly `N` pairs, with keys
`P.0 .. P.(N-1)` in ascending index order paired with the respective
elements, and ends without error, in either failure mode.  The hypotheses
`hsplit` and `hjoin` record the two string-level facts — splitting
`P + ".*"` appends a wildcard segment, and re-joining `P`'s segments gives
back `P` — which hold for every separator-consistent path and are
discharged by computation at any concrete instance. -/
theorem c5_wildcard_completeness (silent : Bool) (d : Value) (p : String)
    (xs : List Value)
    (hres : getItemRawSegs d (splitPath p) = .ok (.list xs))
    (hw : "*" ∉ splitPath p)
    (hsplit : splitPath (p ++ ".*") = splitPath p ++ ["*"])
    (hjoin : joinDots (splitPath p) = p) :
    iterpatternStr silent d (p ++ ".*")
      = ⟨xs.enum.map (fun iv => (p ++ "." ++ toString iv.1, iv.2)), none⟩ := by
  have hne : splitPath p ≠ [] := segs_ne_nil_of_ok hres
  have hget : getitemExtended silent d (pyOr Value.vnone d) (splitPath p)
      = .ok (.list xs) := by
    rw [pyOr_vnone, getitemExtended, resolveFrom, pyOr_self]
    rw [show (do
        let pk ← getObjectAndKey d (splitPath p) false
        readKey pk.1 pk.2 : Except PyErr Value) = getItemRawSegs d (splitPath p)
      from rfl]
    rw [hres]
  rw [iterpatternStr, iterpatternSegs, hsplit]
  have hlen : (splitPath p ++ ["*"]).length = (splitPath p).length + 1 := by
    simp
  rw [hlen, iterFuel_wild_last silent d (splitPath p) Value.vnone
    (splitPath p).length xs hw hne hget, hjoin]

/-- C5 witness: `{"a": [7, 8]}`, pattern `"a.*"`. -/
theorem c5_wildcard_completeness_witness :
    iterpatternStr true (.dict [(.kStr "a", .list [.int 7, .int 8])]) "a.*"
      = ⟨[("a.0", .int 7), ("a.1", .int 8)], none⟩ := by
  have h := c5_wildcard_completeness true
    (.dict [(.kStr "a", .list [.int 7, .int 8])]) "a" [.int 7, .int 8]
    rfl (by decide) rfl rfl
  rw [show ("a" ++ ".*" : String) = "a.*" from rfl] at h
  rw [h]
  rfl

/-- C7: for a path `P` resolving to a list of length `L`,
`set(P + ".+", v)` appends: the set succeeds in either failure mode, the
list at `P` becomes the old list with `v` appended (length `L + 1`), and
`get(P + "." + L)` returns `v`.  As in C5, the split hypotheses record the
string-level splitting facts, and `sL` is the decimal spelling of `L`
(digit-only, parsing to the old length). -/
theorem c7_append_growth (silent : Bool) (d : Value) (p : String)
    (xs : List Value) (v : Value) (sL : String)
    (hres : getItemRawSegs d (splitPath p) = .ok (.list xs))
    (hplus : splitPath (p ++ ".+") = splitPath p ++ ["+"])
    (hidx : splitPath (p ++ "." ++ sL) = splitPath p ++ [sL])
    (hdig : isDigits sL = true)
    (hnum : strToNat sL = xs.length) :
    ∃ d2, setItem silent d (p ++ ".+") v = .ok d2 ∧
      getItemRaw d2 p = .ok (.list (xs ++ [v])) ∧
      getItemRaw d2 (p ++ "." ++ sL) = .ok v ∧
      (xs ++ [v]).length = xs.length + 1 := by
  have hne : splitPath p ≠ [] := segs_ne_nil_of_ok hres
  rw [getItemRawSegs] at hres
  cases hg : getObjectAndKey d (splitPath p) false with
  | error e =>
    rw [hg, exceptBind_err] at hres
    exact absurd hres (by simp)
  | ok pk =>
    obtain ⟨parent, key⟩ := pk
    rw [hg, exceptBind_ok] at hres
    change readKey parent key = Except.ok (Value.list xs) at hres
    obtain ⟨parent2, hwp, hrd, hcoe, hcont2⟩ := write_of_read hres (.list (xs ++ [v]))
    have hop : (fun pv pk => do
        let child ← readKey pv pk
        if isContainer child then do
          let c2 ← mutAt child ["+"] true (setFinal v)
          writeKey pv pk c2
        else .error (deeperErr pk) : Value → Key → Except PyErr Value)
          parent key = .ok parent2 := by
      simp only [hres, exceptBind_ok]
      rw [show mutAt (.list xs) ["+"] true (setFinal v)
            = .ok (.list (xs ++ [v])) from rfl]
      simp only [isContainer, exceptBind_ok, if_true]
      exact hwp
    obtain ⟨d2, hmut, hcd2, hreres⟩ :=
      mutAt_resolved (fun pv pk => do
        let child ← readKey pv pk
        if isContainer child then do
          let c2 ← mutAt child ["+"] true (setFinal v)
          writeKey pv pk c2
        else .error (deeperErr pk)) false (splitPath p) d parent key parent2
        hg hop hcont2
    obtain ⟨ls, hls, hcl⟩ := res_last (splitPath p) d parent key hg
    have hcl2 : coerceKey parent2 ls false = .ok key := by
      rw [hcoe]; exact hcl
    have hgok2 := hreres ls key hls hcl2
    have hset : setSegsRaw d (splitPath (p ++ ".+")) v = .ok d2 := by
      rw [hplus, setSegsRaw,
        mutAt_append_last "+" true (setFinal v) (splitPath p) d hne]
      exact hmut
    refine ⟨d2, ?_, ?_, ?_, by simp⟩
    · simp only [setItem, hset]
    · simp only [getItemRaw, getItemRawSegs, hgok2, exceptBind_ok, hrd]
    · rw [getItemRaw, hidx, getItemRawSegs,
        gok_append_last sL false (splitPath p) d2 hne]
      simp only [hgok2, exceptBind_ok, hrd]
      simp [isContainer, gok_one, coerceKey, hdig, hnum, exceptBind_ok,
        readKey, List.getElem?_concat_length]

/-- C7 witness: appending to `{"a": [1, 2]}` via `"a.+"` then reading
`"a.2"`. -/
theorem c7_append_growth_witness :
    ∃ d2, setItem true (.dict [(.kStr "a", .list [.int 1, .int 2])]) "a.+"
        (.int 9) = .ok d2 ∧
      getItemRaw d2 "a" = .ok (.list [.int 1, .int 2, .int 9]) ∧
      getItemRaw d2 "a.2" = .ok (.int 9) ∧
      ([Value.int 1, Value.int 2] ++ [Value.int 9]).length
        = [Value.int 1, Value.int 2].length + 1 :=
  c7_append_growth true (.dict [(.kStr "a", .list [.int 1, .int 2])]) "a"
    [.int 1, .int 2] (.int 9) "2" rfl rfl rfl rfl rfl

/-- C6: evaluation of the pattern engine at the input that exposes the
`data_root or self.data` defaulting (lines 503 and 636 of the source).
Expanding the pattern `"*.a"` over `{"x": {}, "a": 99}` reaches the entry
`("x", {})`; the spec's recursion step says the sub-expansion of `["a"]`
must use the entry's value `{}` as its data root (yielding the absent
sentinel for `"x.a"` in silent mode).  Because the empty dict is falsy,
`data_root or self.data` replaces it with the wrapper's root, so the
sub-expansion looks `"a"` up in the root instead and the code yields
`("x.a", 99)`.  (The second pair, from the truthy entry `99`, follows the
spec: `99` is kept as the data root, resolution fails on a leaf, silent
mode yields the sentinel.) -/
theorem c6_falsy_dataroot_eval :
    iterpatternStr true (.dict [(.kStr "x", .dict []), (.kStr "a", .int 99)])
      "*.a"
      = ⟨[("x.a", .int 99), ("a.a", .vnone)], none⟩ := rfl
